import Mathlib

/-!
Verification development for the change-detection core of midas-watchtower
(src/change_detector.py, src/models.py).

Strings are embedded as `List Char` (`LStr`), Python dicts as association
lists with replace-on-insert semantics, Python `int` as `Int`, Python float
results (the percent-change values) as `Rat` (the exact value of the same
formula), and fallible operations (CPython `urllib.parse` raising
`ValueError` on mismatched IPv6 brackets, and everything downstream of it)
as `Except Unit`.

`urlsplitE`, `urlparseE`, `urlunsplitL` model the CPython `urllib.parse`
functions used by the source (`urlparse`, `urlunparse` restricted to the
empty-`params` arguments the source passes).  Python set iteration order is
unspecified; `generate_url_variants` models the variant set as a
duplicate-free list in insertion order.  Python dict equality is
order-insensitive; the one dict-level equality comparison in the source
(heading_structure) is modelled as association-list equality, which no
claim under verification depends on.
-/

set_option maxHeartbeats 1000000

abbrev LStr := List Char

deriving instance DecidableEq for Except

/-- ASCII lowercasing of one character, as CPython `str.lower` acts on the
ASCII range (the only range exercised by the code's header constants and
scheme/host handling). -/
def lowerC (c : Char) : Char :=
  if 65 ≤ c.toNat ∧ c.toNat ≤ 90 then Char.ofNat (c.toNat + 32) else c

/-- Python `str.lower` on the embedded strings. -/
def lowerL (s : LStr) : LStr := s.map lowerC

/-- Python `d.get(k)` on an association-list dict (first matching key wins;
dicts built by `dinsert` have unique keys, so this agrees with Python). -/
def dget (k : LStr) : List (LStr × α) → Option α
  | [] => none
  | (k', v) :: rest => if k' = k then some v else dget k rest

/-- Python `d[k] = v`: replace the value at an existing key in place,
otherwise append the new pair. -/
def dinsert (k : LStr) (v : α) : List (LStr × α) → List (LStr × α)
  | [] => [(k, v)]
  | (k', v') :: rest => if k' = k then (k', v) :: rest else (k', v') :: dinsert k v rest

/-- Python dict comprehension `{k.lower(): v for k, v in d.items()}`. -/
def lowerDict (d : List (LStr × α)) : List (LStr × α) :=
  d.foldl (fun acc p => dinsert (lowerL p.1) p.2 acc) []

/-- Python `s.split(d, 1)`: split at the first occurrence of `d`; when `d`
is absent the second component is empty (matching the source's use, where
an absent delimiter leaves the query/fragment as the empty string). -/
def splitFirst (d : Char) : LStr → LStr × LStr
  | [] => ([], [])
  | c :: rest =>
    if c = d then ([], rest)
    else
      let p := splitFirst d rest
      (c :: p.1, p.2)

/-- Python `s.rsplit(c, 1)` at character `':'` when `':' in s`: split at the
last colon; `none` when there is no colon. -/
def rsplitColon : LStr → Option (LStr × LStr)
  | [] => none
  | c :: rest =>
    match rsplitColon rest with
    | some (h, p) => some (c :: h, p)
    | none => if c = ':' then some ([], rest) else none

/-- CPython `scheme_chars`: letters, digits, `+`, `-`, `.`. -/
def schemeChar (c : Char) : Bool :=
  c.isAlphanum || c = '+' || c = '-' || c = '.'

/-- WHATWG C0-control-or-space class stripped from the left of URLs by
CPython `urlsplit`. -/
def c0space (c : Char) : Bool := c.toNat ≤ 32

/-- CPython `_UNSAFE_URL_BYTES_TO_REMOVE`: tab, carriage return, newline. -/
def unsafeByte (c : Char) : Bool := c = '\t' || c = '\r' || c = '\n'

/-- Result of CPython `urlsplit`. -/
structure SplitRes where
  scheme : LStr
  netloc : LStr
  path : LStr
  query : LStr
  fragment : LStr
  deriving DecidableEq

/-- Result of CPython `urlparse` (adds the `params` component). -/
structure ParseRes where
  scheme : LStr
  netloc : LStr
  path : LStr
  params : LStr
  query : LStr
  fragment : LStr
  deriving DecidableEq

/-- CPython scheme recognition in `urlsplit`: `i = url.find(':')`; a scheme
is split off when `i > 0`, `url[0]` is an ASCII letter, and every character
before the colon is in `scheme_chars`; the scheme is lowercased. -/
def splitScheme (url : LStr) : LStr × LStr :=
  let pre := url.takeWhile (fun c => c ≠ ':')
  if pre.length < url.length ∧ pre ≠ [] ∧
      (pre.headD ' ').isAlpha = true ∧ pre.all schemeChar then
    (lowerL pre, url.drop (pre.length + 1))
  else
    ([], url)

/-- Characters terminating the netloc in CPython `_splitnetloc`. -/
def netlocDelim (c : Char) : Bool := c = '/' || c = '?' || c = '#'

/-- CPython `uses_netloc` (schemes that get `//` re-inserted by
`urlunsplit`). -/
def usesNetloc : List LStr :=
  [[], "ftp".data, "http".data, "gopher".data, "nntp".data, "telnet".data,
   "imap".data, "wais".data, "file".data, "mms".data, "https".data,
   "shttp".data, "snews".data, "prospero".data, "rtsp".data, "rtsps".data,
   "rtspu".data, "rsync".data, "svn".data, "svn+ssh".data, "sftp".data,
   "nfs".data, "git".data, "git+ssh".data, "ws".data, "wss".data]

/-- CPython `uses_params` (schemes whose path gets `;params` split off by
`urlparse`). -/
def usesParams : List LStr :=
  [[], "ftp".data, "hdl".data, "prospero".data, "http".data, "imap".data,
   "https".data, "shttp".data, "rtsp".data, "rtsps".data, "rtspu".data,
   "sip".data, "sips".data, "mms".data, "sftp".data, "tel".data]

/-- CPython `urlsplit(url)` (with default `scheme=''`,
`allow_fragments=True`): lstrip C0-controls/space, drop tab/CR/LF, split
scheme, split netloc after `//` (raising `ValueError` on mismatched square
brackets), then split fragment at the first `#` and query at the first `?`.
The further CPython checks on a balanced-bracket host
(`_check_bracketed_host`) and on non-NFKC netloc characters (`_checknetloc`)
are not modelled: they only further restrict which URLs raise, and no claim
under verification involves such a URL. -/
def urlsplitE (url0 : LStr) : Except Unit SplitRes :=
  let url1 := (url0.dropWhile c0space).filter (fun c => ¬ unsafeByte c)
  let sp := splitScheme url1
  let scheme := sp.1
  let rest := sp.2
  if rest.take 2 = ['/', '/'] then
    let netloc := (rest.drop 2).takeWhile (fun c => ¬ netlocDelim c)
    let rest' := (rest.drop 2).dropWhile (fun c => ¬ netlocDelim c)
    if ('[' ∈ netloc ∧ ']' ∉ netloc) ∨ (']' ∈ netloc ∧ '[' ∉ netloc) then
      .error ()
    else
      let pf := splitFirst '#' rest'
      let pq := splitFirst '?' pf.1
      .ok ⟨scheme, netloc, pq.1, pq.2, pf.2⟩
  else
    let pf := splitFirst '#' rest
    let pq := splitFirst '?' pf.1
    .ok ⟨scheme, [], pq.1, pq.2, pf.2⟩

/-- CPython `_splitparams`: split `;params` out of the last path segment. -/
def splitParams (p : LStr) : LStr × LStr :=
  if '/' ∈ p then
    match p.reverse.span (fun c => c ≠ '/') with
    | (revAfter, _ :: revBefore) =>
      let after := revAfter.reverse
      if ';' ∈ after then
        let s := splitFirst ';' after
        (revBefore.reverse ++ '/' :: s.1, s.2)
      else (p, [])
    | (_, []) => (p, [])
  else splitFirst ';' p

/-- CPython `urlparse`: `urlsplit` plus params splitting when the scheme is
in `uses_params` and `;` occurs in the path. -/
def urlparseE (url : LStr) : Except Unit ParseRes := do
  let r ← urlsplitE url
  if r.scheme ∈ usesParams ∧ ';' ∈ r.path then
    let s := splitParams r.path
    pure ⟨r.scheme, r.netloc, s.1, s.2, r.query, r.fragment⟩
  else
    pure ⟨r.scheme, r.netloc, r.path, [], r.query, r.fragment⟩

/-- CPython `urlunsplit`. -/
def urlunsplitL (scheme netloc path query fragment : LStr) : LStr :=
  let u :=
    if netloc ≠ [] ∨ (scheme ≠ [] ∧ scheme ∈ usesNetloc ∧ path.take 2 ≠ ['/', '/']) then
      let p := if path ≠ [] ∧ path.take 1 ≠ ['/'] then '/' :: path else path
      ['/', '/'] ++ netloc ++ p
    else path
  let u := if scheme ≠ [] then scheme ++ ':' :: u else u
  let u := if query ≠ [] then u ++ '?' :: query else u
  if fragment ≠ [] then u ++ '#' :: fragment else u

/-- CPython `urlunparse` restricted to the empty `params` argument the
source always passes. -/
def urlunparseL (scheme netloc path query fragment : LStr) : LStr :=
  urlunsplitL scheme netloc path query fragment

/-- Model of lines 192-196 of src/change_detector.py: when the netloc
contains a colon, `rsplit(':', 1)` it and drop a port of `80` under `http`
or `443` under `https`. -/
def stripDefaultPort (scheme netloc : LStr) : LStr :=
  match rsplitColon netloc with
  | some (host, port) =>
    if (scheme = "http".data ∧ port = "80".data) ∨
       (scheme = "https".data ∧ port = "443".data) then host else netloc
  | none => netloc

/-- Model of `ChangeDetector._normalize_url` (src/change_detector.py lines 176-204):
lowercase scheme (defaulting a missing scheme to `http`) and netloc, strip
the default port via `rsplit(':', 1)`, strip one trailing slash unless the
path is exactly `/`, and reassemble with empty params, query and fragment.
Raises (models `ValueError` from `urlparse`) exactly when parsing does. -/
def normalize_url (url : LStr) : Except Unit LStr :=
  if url = [] then .ok url
  else do
    let p ← urlparseE url
    let scheme := if p.scheme ≠ [] then lowerL p.scheme else "http".data
    let netloc := stripDefaultPort scheme (lowerL p.netloc)
    let path := p.path
    let path := if path ≠ ['/'] ∧ path.getLast? = some '/' then path.dropLast else path
    pure (urlunparseL scheme netloc path [] [])

example : normalize_url ("HTTP://Example.com:80/path/".data) = .ok ("http://example.com/path".data) := by decide
example : normalize_url ("http://example.com/path".data) = .ok ("http://example.com/path".data) := by decide
example : normalize_url ("http://example.com/path/".data) = .ok ("http://example.com/path".data) := by decide
example : normalize_url ("http://example.com/a?q=1".data) = .ok ("http://example.com/a".data) := by decide
example : normalize_url ("example.com/path".data) = .ok ("http:///example.com/path".data) := by decide
example : normalize_url ("HTTPS://EX.com:443/".data) = .ok ("https://ex.com/".data) := by decide
example : normalize_url ("http://e.com/a#frag".data) = .ok ("http://e.com/a".data) := by decide
example : normalize_url ("http://[::z".data) = .error () := by decide
example : normalize_url ("http://a.com".data) = .ok ("http://a.com".data) := by decide

/-- Heterogeneous values occurring in a `details` mapping of a change record
or alert (src/models.py `details: Dict[str, Any]`). -/
inductive DVal where
  | s (v : LStr)
  | os (v : Option LStr)
  | i (v : Int)
  | oi (v : Option Int)
  | q (v : Rat)
  | b (v : Bool)
  | ls (v : List LStr)
  | hs (v : List (LStr × Int))
  deriving DecidableEq

/-- The keys of the `content_analysis` dict that the change detector reads
(each with a `.get` default in the source, hence `Option` here; the
`{keyword}_keyword_count` family is kept as a dict since its keys are
computed). -/
structure ContentAnalysisD where
  word_count : Option Int
  heading_structure : Option (List (LStr × Int))
  version_indicators : Option (List LStr)
  keyword_counts : List (LStr × Int)
  has_legal_language : Option Bool
  deriving DecidableEq

/-- Model of `HtmlMetadata` (src/models.py lines 33-49).  The serialized snapshot
form (src/change_detector.py lines 149-165) copies every one of these
fields unchanged, so the same structure serves for both the live object and
the stored dict. -/
structure HtmlMeta where
  title : Option LStr
  meta_description : Option LStr
  canonical_url : Option LStr
  og_metadata : List (LStr × LStr)
  twitter_metadata : List (LStr × LStr)
  other_metadata : List (LStr × LStr)
  structured_data : List (LStr × LStr)
  important_links : List (LStr × LStr)
  content_analysis : ContentAnalysisD
  language : Option LStr
  charset : Option LStr
  has_forms : Bool
  has_comments : Bool
  error : Option LStr
  deriving DecidableEq

/-- Model of `UrlMetadata` (src/models.py lines 52-62). -/
structure UrlMetadata where
  url : LStr
  timestamp : LStr
  status_code : Option Int
  headers : List (LStr × LStr)
  final_url : Option LStr
  html_metadata : Option HtmlMeta
  content_length : Int
  response_time : Rat
  error : Option LStr
  deriving DecidableEq

/-- The serialized snapshot stored in `metadata_history`
(src/change_detector.py lines 136-165): the same fields as `UrlMetadata`
with header keys lowercased. -/
structure Snapshot where
  url : LStr
  timestamp : LStr
  status_code : Option Int
  headers : List (LStr × LStr)
  final_url : Option LStr
  content_length : Int
  response_time : Rat
  error : Option LStr
  html_metadata : Option HtmlMeta
  deriving DecidableEq

/-- Model of `ChangeDetails` (src/models.py lines 70-76). -/
structure ChangeDetails where
  change_type : String
  source : String
  details : List (String × DVal)
  severity : String
  policy_alert : Bool
  deriving DecidableEq

/-- Model of `PolicyAlert` (src/models.py lines 130-142); the wall-clock
`datetime.now()` timestamp is passed in as a parameter `now`. -/
structure PolicyAlert where
  alert_type : String
  severity : String
  message : String
  details : List (String × DVal)
  url : LStr
  timestamp : Int
  deriving DecidableEq

/-- The in-memory store `self.history`: top-level keys `metadata_history`
and `policy_alerts`. -/
structure History where
  metadata_history : List (LStr × Snapshot)
  policy_alerts : List PolicyAlert
  deriving DecidableEq

def emptyHistory : History := ⟨[], []⟩

/-- The four thresholds read off the settings object in `__init__`
(src/change_detector.py lines 29-32), with their documented defaults. -/
structure Config where
  content_size_threshold : Int
  word_count_threshold : Int
  word_count_major_threshold : Int
  policy_keyword_count_threshold : Int
  deriving DecidableEq

def defaultConfig : Config := ⟨1000, 50, 100, 2⟩

/-- The states the history file can be in when `_load_history` runs:
absent; present but unreadable (`IOError` on open/read); present and
readable but with bytes that are not valid UTF-8 (the text-mode read inside
`json.load` raises `UnicodeDecodeError`); valid UTF-8 text that is not JSON
(`json.JSONDecodeError`); or a readable well-formed document. -/
inductive FileState where
  | missing
  | unreadable
  | invalidUtf8
  | invalidJson
  | valid (doc : History)
  deriving DecidableEq

/-- Model of `ChangeDetector._load_history` (src/change_detector.py lines 34-43):
a missing file yields the empty store directly, and `json.JSONDecodeError`
and `IOError` are caught and also yield the empty store — but a file whose
bytes are not valid UTF-8 makes `json.load` raise `UnicodeDecodeError`,
which is neither a `json.JSONDecodeError` nor an `IOError` and therefore
escapes the `except` clause: constructing the store propagates it
(modelled as `.error`). -/
def load_history : FileState → Except Unit History
  | .missing => .ok emptyHistory
  | .unreadable => .ok emptyHistory
  | .invalidUtf8 => .error ()
  | .invalidJson => .ok emptyHistory
  | .valid doc => .ok doc

/-- Python truthiness of an optional string (`None` and `''` are falsy). -/
def isTruthyS : Option LStr → Bool
  | some s => s ≠ []
  | none => false

/-- The serializable projection built by `_save_current_metadata`
(src/change_detector.py lines 136-165): headers are re-keyed lowercase, the
HTML block is copied field-by-field (the identity on this typed model). -/
def serializeMeta (m : UrlMetadata) : Snapshot :=
  { url := m.url
    timestamp := m.timestamp
    status_code := m.status_code
    headers := lowerDict m.headers
    final_url := m.final_url
    content_length := m.content_length
    response_time := m.response_time
    error := m.error
    html_metadata := m.html_metadata }

/-- The storage key of `ChangeDetector._save_current_metadata`
(src/change_detector.py lines 167-172): `normalize(final_url or url)`,
falling back to the caller's raw `url` argument when normalization raises
(the `except` branch). -/
def saveKey (url : LStr) (metadata : UrlMetadata) : LStr :=
  match normalize_url
      (match metadata.final_url with
       | some f => if f ≠ [] then f else metadata.url
       | none => metadata.url) with
  | .ok k => k
  | .error _ => url

def save_current_metadata (url : LStr) (metadata : UrlMetadata) (h : History) : History :=
  { h with metadata_history :=
      dinsert (saveKey url metadata) (serializeMeta metadata) h.metadata_history }

/-- Python `set.add` modelled as append-if-absent (CPython set iteration
order is unspecified; this model fixes insertion order). -/
def saddL (x : LStr) (l : List LStr) : List LStr :=
  if x ∈ l then l else l ++ [x]

/-- Run the sequence of `variants.add(self._normalize_url(...))` calls of
`_generate_url_variants`; the first raising call aborts the sequence,
returning the variants accumulated so far (the `except Exception: pass`). -/
def addVariants (vs : List LStr) : List (Except Unit LStr) → List LStr
  | [] => vs
  | .ok v :: rest => addVariants (saddL v vs) rest
  | .error _ :: _ => vs

/-- Model of `ChangeDetector._generate_url_variants` (src/change_detector.py lines
206-234): normalized base plus http/https swaps and a www toggle, built
inside one try/except that returns whatever was accumulated on error. -/
def generate_url_variants (url : LStr) : List LStr :=
  match urlparseE url, normalize_url url with
  | .ok parsed, .ok base =>
    let scheme := parsed.scheme
    let netloc := if parsed.netloc ≠ [] then parsed.netloc else parsed.path
    let path := if parsed.scheme ≠ [] then parsed.path else []
    let cands :=
      (if scheme ≠ "http".data then
         [normalize_url (urlunparseL ("http".data) netloc path [] [])] else [])
      ++ (if scheme ≠ "https".data then
         [normalize_url (urlunparseL ("https".data) netloc path [] [])] else [])
      ++ [if netloc.take 4 = "www.".data then
            normalize_url (urlunparseL (if scheme ≠ [] then scheme else "http".data)
              (netloc.drop 4) path [] [])
          else
            normalize_url (urlunparseL (if scheme ≠ [] then scheme else "http".data)
              ("www.".data ++ netloc) path [] [])]
    addVariants [base] cands
  | _, _ => []

/-- The body of the per-entry `try` block in the fallback scan of
`_get_previous_metadata` (src/change_detector.py lines 114-126): compare the
entry's truthy `final_url` then truthy `canonical_url` against the query
URL, raw first, then normalized (which can raise). -/
def entryCheck (url nu : LStr) (e : Snapshot) : Except Unit Bool := do
  let finalMatch ←
    (match e.final_url with
     | some f =>
       if f ≠ [] then
         if f = url then pure true
         else do
           let n ← normalize_url f
           pure (n = nu)
       else pure false
     | none => pure false)
  if finalMatch then pure true
  else
    match e.html_metadata.bind (fun hm => hm.canonical_url) with
    | some c =>
      if c ≠ [] then
        if c = url then pure true
        else do
          let n ← normalize_url c
          pure (n = nu)
      else pure false
    | none => pure false

/-- The `for entry in history.values()` loop of the fallback scan: return
the first entry whose check succeeds; a raising check is skipped
(`except Exception: continue`). -/
def scanEntries (url nu : LStr) : List Snapshot → Option Snapshot
  | [] => none
  | e :: rest =>
    match entryCheck url nu e with
    | .ok true => some e
    | .ok false => scanEntries url nu rest
    | .error _ => scanEntries url nu rest

/-- Model of `ChangeDetector._get_previous_metadata` (src/change_detector.py lines
94-128): raw key, then normalized key (normalization of the query URL is
outside any try and propagates), then generated variants, then the fallback
scan. -/
def get_previous_metadata (url : LStr) (h : History) : Except Unit (Option Snapshot) :=
  match dget url h.metadata_history with
  | some e => .ok (some e)
  | none => do
    let nu ← normalize_url url
    match dget nu h.metadata_history with
    | some e => pure (some e)
    | none =>
      match (generate_url_variants url).find? (fun v => (dget v h.metadata_history).isSome) with
      | some v => pure (dget v h.metadata_history)
      | none => pure (scanEntries url nu (h.metadata_history.map (fun p => p.2)))

def important_headers : List LStr :=
  ["last-modified".data, "etag".data, "content-type".data,
   "content-length".data, "cache-control".data]

/-- Model of `ChangeDetector._detect_header_changes` (src/change_detector.py lines
285-310): both header dicts re-keyed lowercase, then each important header
compared independently; `last-modified` is low severity, the rest medium. -/
def detect_header_changes (current_headers previous_headers : List (LStr × LStr)) :
    List ChangeDetails :=
  let current_norm := lowerDict current_headers
  let previous_norm := lowerDict previous_headers
  important_headers.flatMap (fun header =>
    let current_val := dget header current_norm
    let previous_val := dget header previous_norm
    if current_val ≠ previous_val then
      [{ change_type := "header_change"
         source := "http_metadata"
         details := [("header", .s header), ("old_value", .os previous_val),
                     ("new_value", .os current_val)]
         severity := if header = "last-modified".data then "low" else "medium"
         policy_alert := false }]
    else [])

/-- Model of `ChangeDetector._detect_http_changes` (src/change_detector.py lines
236-283). -/
def detect_http_changes (cfg : Config) (url : LStr) (current : UrlMetadata)
    (previous : Snapshot) : List ChangeDetails :=
  (if current.status_code ≠ previous.status_code then
     [{ change_type := "status_change"
        source := "http_metadata"
        details := [("old_status", .oi previous.status_code),
                    ("new_status", .oi current.status_code)]
        severity :=
          match current.status_code with
          | some c => if c ≥ 400 then "high" else "medium"
          | none => "medium"
        policy_alert := false }]
   else [])
  ++ (if current.final_url ≠ previous.final_url then
     [{ change_type := "redirect_change"
        source := "http_metadata"
        details := [("old_url", .os previous.final_url),
                    ("new_url", .os current.final_url)]
        severity := "medium"
        policy_alert := false }]
   else [])
  ++ (let current_length := current.content_length
      let previous_length := previous.content_length
      if |current_length - previous_length| > cfg.content_size_threshold then
        [{ change_type := "content_size_change"
           source := "http_metadata"
           details := [("old_size", .i previous_length), ("new_size", .i current_length),
                       ("change_percent",
                        .q (((current_length - previous_length).natAbs : Rat) /
                            ((max previous_length 1 : Int) : Rat) * 100))]
           severity := "medium"
           policy_alert := false }]
      else [])
  ++ detect_header_changes current.headers previous.headers

def important_og_fields : List LStr :=
  ["title".data, "description".data, "image".data, "url".data]

/-- Model of `ChangeDetector._detect_og_changes` (src/change_detector.py lines
365-383). -/
def detect_og_changes (current_og previous_og : List (LStr × LStr)) : List ChangeDetails :=
  important_og_fields.flatMap (fun field =>
    if dget field current_og ≠ dget field previous_og then
      [{ change_type := "opengraph_change"
         source := "html_metadata"
         details := [("field", .s field), ("old_value", .os (dget field previous_og)),
                     ("new_value", .os (dget field current_og))]
         severity := "medium"
         policy_alert := false }]
    else [])

/-- Model of `ChangeDetector._detect_content_changes` (src/change_detector.py lines
385-418). -/
def detect_content_changes (cfg : Config)
    (current_content previous_content : ContentAnalysisD) : List ChangeDetails :=
  let current_words := current_content.word_count.getD 0
  let previous_words := previous_content.word_count.getD 0
  (if |current_words - previous_words| > cfg.word_count_threshold then
     [{ change_type := "word_count_change"
        source := "content_analysis"
        details := [("old_count", .i previous_words), ("new_count", .i current_words),
                    ("change_percent",
                     .q (((current_words - previous_words).natAbs : Rat) /
                         ((max previous_words 1 : Int) : Rat) * 100))]
        severity :=
          if |current_words - previous_words| > cfg.word_count_major_threshold
          then "medium" else "low"
        policy_alert := false }]
   else [])
  ++ (let current_headings := current_content.heading_structure.getD []
      let previous_headings := previous_content.heading_structure.getD []
      if current_headings ≠ previous_headings then
        [{ change_type := "heading_structure_change"
           source := "content_analysis"
           details := [("old_structure", .hs previous_headings),
                       ("new_structure", .hs current_headings)]
           severity := "low"
           policy_alert := false }]
      else [])

/-- Model of `ChangeDetector._detect_html_metadata_changes` (src/change_detector.py
lines 312-363). -/
def detect_html_metadata_changes (cfg : Config) (url : LStr)
    (current previous : HtmlMeta) : List ChangeDetails :=
  (if current.title ≠ previous.title then
     [{ change_type := "title_change"
        source := "html_metadata"
        details := [("old_title", .os previous.title), ("new_title", .os current.title)]
        severity := "high"
        policy_alert := false }]
   else [])
  ++ (if current.meta_description ≠ previous.meta_description then
     [{ change_type := "meta_description_change"
        source := "html_metadata"
        details := [("old_description", .os previous.meta_description),
                    ("new_description", .os current.meta_description)]
        severity := "medium"
        policy_alert := false }]
   else [])
  ++ (if current.canonical_url ≠ previous.canonical_url then
     [{ change_type := "canonical_url_change"
        source := "html_metadata"
        details := [("old_canonical", .os previous.canonical_url),
                    ("new_canonical", .os current.canonical_url)]
        severity := "medium"
        policy_alert := false }]
   else [])
  ++ detect_og_changes current.og_metadata previous.og_metadata
  ++ detect_content_changes cfg current.content_analysis previous.content_analysis

def policy_keywords : List LStr :=
  ["privacy".data, "terms".data, "liability".data, "termination".data,
   "rights".data, "governance".data]

/-- Python `set(a) == set(b)` on lists of strings. -/
def isSetEq (a b : List LStr) : Bool :=
  a.all (fun x => decide (x ∈ b)) && b.all (fun x => decide (x ∈ a))

/-- Model of `ChangeDetector._detect_policy_content_changes` (src/change_detector.py
lines 455-494). -/
def detect_policy_content_changes (cfg : Config)
    (current_content previous_content : ContentAnalysisD) : List ChangeDetails :=
  policy_keywords.flatMap (fun keyword =>
    let key := keyword ++ "_keyword_count".data
    let current_count := (dget key current_content.keyword_counts).getD 0
    let previous_count := (dget key previous_content.keyword_counts).getD 0
    if |current_count - previous_count| > cfg.policy_keyword_count_threshold then
      [{ change_type := "policy_keyword_change"
         source := "policy_analysis"
         details := [("keyword", .s keyword), ("old_count", .i previous_count),
                     ("new_count", .i current_count)]
         severity := "medium"
         policy_alert := true }]
    else [])
  ++ (let current_versions := current_content.version_indicators.getD []
      let previous_versions := previous_content.version_indicators.getD []
      if ¬ isSetEq current_versions previous_versions then
        [{ change_type := "version_indicator_change"
           source := "policy_analysis"
           details := [("old_versions", .ls previous_versions),
                       ("new_versions", .ls current_versions)]
           severity := "high"
           policy_alert := true }]
      else [])

/-- Model of `ChangeDetector._detect_keyword_changes` (src/change_detector.py lines
496-516). -/
def detect_keyword_changes (current_content previous_content : ContentAnalysisD) :
    List ChangeDetails :=
  let current_legal := current_content.has_legal_language.getD false
  let previous_legal := previous_content.has_legal_language.getD false
  if current_legal ≠ previous_legal then
    [{ change_type := "legal_language_change"
       source := "policy_analysis"
       details := [("old_state", .b previous_legal), ("new_state", .b current_legal)]
       severity := "medium"
       policy_alert := true }]
  else []

/-- Model of `ChangeDetector._detect_policy_changes` (src/change_detector.py lines
420-453). -/
def detect_policy_changes (cfg : Config) (url : LStr)
    (current previous : HtmlMeta) : List ChangeDetails :=
  (let current_version := dget ("version".data) current.other_metadata
   let previous_version := dget ("version".data) previous.other_metadata
   if current_version ≠ previous_version then
     [{ change_type := "version_change"
        source := "policy_analysis"
        details := [("old_version", .os previous_version),
                    ("new_version", .os current_version)]
        severity := "high"
        policy_alert := true }]
   else [])
  ++ detect_policy_content_changes cfg current.content_analysis previous.content_analysis
  ++ detect_keyword_changes current.content_analysis previous.content_analysis

/-- The single record emitted on first sight of a URL
(src/change_detector.py lines 64-69). -/
def first_detection_record : ChangeDetails :=
  { change_type := "first_detection"
    source := "direct_metadata"
    details := [("message", .s ("URL detected for the first time".data))]
    severity := "low"
    policy_alert := false }

/-- Model of `ChangeDetector.detect_metadata_changes` (src/change_detector.py lines
54-92): resolve a previous snapshot; on first sight persist and return the
single `first_detection` record; otherwise diff HTTP-level fields, then
HTML-level and policy fields when both sides carry HTML metadata, then
persist.  Raises exactly when resolving the query URL raises. -/
def detect_metadata_changes (cfg : Config) (url : LStr) (current_meta : UrlMetadata)
    (h : History) : Except Unit (List ChangeDetails × History) := do
  let previous_meta ← get_previous_metadata url h
  match previous_meta with
  | none =>
    pure ([first_detection_record], save_current_metadata url current_meta h)
  | some previous =>
    let changes := detect_http_changes cfg url current_meta previous
    let changes := changes ++
      (match current_meta.html_metadata, previous.html_metadata with
       | some ch, some ph =>
         detect_html_metadata_changes cfg url ch ph ++ detect_policy_changes cfg url ch ph
       | _, _ => [])
    pure (changes, save_current_metadata url current_meta h)

/-- Python `str(x)` on an optional header value (`None` prints as `None`)
as used in the stealth alert's f-string. -/
def fmtOptStr : Option LStr → LStr
  | none => "None".data
  | some s => s

/-- Model of `ChangeDetector.detect_stealth_updates` (src/change_detector.py lines
518-572); `now` stands in for `datetime.now()`. -/
def detect_stealth_updates (current_meta : UrlMetadata) (previous_meta : Snapshot)
    (now : Int) : List PolicyAlert :=
  match current_meta.html_metadata, previous_meta.html_metadata with
  | some current_html, some previous_html =>
    let current_words := current_html.content_analysis.word_count.getD 0
    let previous_words := previous_html.content_analysis.word_count.getD 0
    (if |current_words - previous_words| > 100 then
       let current_versions := current_html.content_analysis.version_indicators.getD []
       let previous_versions := previous_html.content_analysis.version_indicators.getD []
       if isSetEq current_versions previous_versions then
         [{ alert_type := "STEALTH_CONTENT_CHANGE"
            severity := "HIGH"
            message := "Significant content changes detected without version update"
            details := [("word_count_change", .i (current_words - previous_words)),
                        ("current_versions", .ls current_versions),
                        ("previous_versions", .ls previous_versions)]
            url := current_meta.url
            timestamp := now }]
       else []
     else [])
    ++ (let current_headers := lowerDict current_meta.headers
        let previous_headers := lowerDict previous_meta.headers
        let current_last_modified := dget ("last-modified".data) current_headers
        let previous_last_modified := dget ("last-modified".data) previous_headers
        if current_last_modified ≠ previous_last_modified ∧
            |current_words - previous_words| < 50 then
          [{ alert_type := "STEALTH_LAST_MODIFIED_UPDATE"
             severity := "MEDIUM"
             message := "Last-Modified header changed with minimal content changes"
             details := [("last_modified_change",
                          .s (fmtOptStr previous_last_modified ++ " -> ".data ++
                              fmtOptStr current_last_modified)),
                         ("word_count_change", .i (current_words - previous_words))]
             url := current_meta.url
             timestamp := now }]
        else [])
  | _, _ => []

/-! ### Spec-side normalization (claim C1)

`normalizeSpecKeepQuery` is modelled from the spec's words, not the source:
"lowercases scheme and host, strips default ports (80 for http, 443 for
https), strips a single trailing slash (except when path is exactly `/`),
strips any fragment, leaves query string intact", reading URL components
off the same parser.  `normalizeSpecNoQuery` is the same with the query
dropped, for the amended claim. -/

/-- Spec-worded suffix test: the last `suf.length` characters of `l` are
`suf`. -/
def endsWithL (suf l : LStr) : Bool := decide (l.drop (l.length - suf.length) = suf)

/-- Remove the last `suf.length` characters. -/
def stripSuffixL (suf l : LStr) : LStr := l.take (l.length - suf.length)

/-- Spec-worded default-port stripping: the host carries the default port
when it ends with `:80` (http) or `:443` (https); stripping removes that
suffix. -/
def stripPortSpec (scheme n : LStr) : LStr :=
  if scheme = "http".data ∧ endsWithL (":80".data) n = true then stripSuffixL (":80".data) n
  else if scheme = "https".data ∧ endsWithL (":443".data) n = true then stripSuffixL (":443".data) n
  else n

/-- Spec-worded normalization keeping the query intact, as claim C1 states. -/
def normalizeSpecKeepQuery (url : LStr) : Except Unit LStr :=
  if url = [] then .ok url
  else do
    let p ← urlparseE url
    let scheme := lowerL p.scheme
    let host := stripPortSpec scheme (lowerL p.netloc)
    let path := if p.path ≠ ['/'] ∧ p.path.getLast? = some '/' then p.path.dropLast else p.path
    pure (urlunsplitL scheme host path p.query [])

/-- Spec-worded normalization with the query dropped as well (the amended
claim C1). -/
def normalizeSpecNoQuery (url : LStr) : Except Unit LStr :=
  if url = [] then .ok url
  else do
    let p ← urlparseE url
    let scheme := lowerL p.scheme
    let host := stripPortSpec scheme (lowerL p.netloc)
    let path := if p.path ≠ ['/'] ∧ p.path.getLast? = some '/' then p.path.dropLast else p.path
    pure (urlunsplitL scheme host path [] [])

/-! ### Helper lemmas about rsplit and suffixes -/

theorem rsplitColon_none_not_mem {n : LStr} (h : rsplitColon n = none) : ':' ∉ n := by
  induction n with
  | nil => simp
  | cons c rest ih =>
    simp only [rsplitColon] at h
    cases hrr : rsplitColon rest with
    | some hp => rw [hrr] at h; cases h
    | none =>
      rw [hrr] at h
      by_cases hc : c = ':'
      · rw [if_pos hc] at h; cases h
      · intro hm
        rcases List.mem_cons.mp hm with he | hm2
        · exact hc he.symm
        · exact ih hrr hm2

theorem rsplitColon_not_mem {n : LStr} (h : ':' ∉ n) : rsplitColon n = none := by
  induction n with
  | nil => rfl
  | cons c rest ih =>
    have hc : ¬ c = ':' := fun he => h (by rw [he]; exact List.mem_cons_self _ _)
    have hrest : ':' ∉ rest := fun hm => h (List.mem_cons_of_mem _ hm)
    simp only [rsplitColon, ih hrest, if_neg hc]

theorem rsplitColon_eq_some {n h p : LStr} (hr : rsplitColon n = some (h, p)) :
    n = h ++ ':' :: p ∧ ':' ∉ p := by
  induction n generalizing h p with
  | nil => cases hr
  | cons c rest ih =>
    simp only [rsplitColon] at hr
    cases hrr : rsplitColon rest with
    | some hp1 =>
      obtain ⟨h1, p1⟩ := hp1
      rw [hrr] at hr
      simp only [Option.some.injEq, Prod.mk.injEq] at hr
      obtain ⟨hh, hpp⟩ := hr
      subst hh; subst hpp
      obtain ⟨hne, hnp⟩ := ih hrr
      exact ⟨by rw [hne]; rfl, hnp⟩
    | none =>
      rw [hrr] at hr
      by_cases hc : c = ':'
      · subst hc
        rw [if_pos rfl] at hr
        simp only [Option.some.injEq, Prod.mk.injEq] at hr
        obtain ⟨hh, hpp⟩ := hr
        subst hh; subst hpp
        exact ⟨rfl, rsplitColon_none_not_mem hrr⟩
      · rw [if_neg hc] at hr; cases hr

theorem rsplitColon_append {h p : LStr} (hp : ':' ∉ p) :
    rsplitColon (h ++ ':' :: p) = some (h, p) := by
  induction h with
  | nil => simp [rsplitColon, rsplitColon_not_mem hp]
  | cons c h' ih => simp [rsplitColon, ih]

theorem endsWithL_iff {n s : LStr} : endsWithL s n = true ↔ ∃ h, n = h ++ s := by
  unfold endsWithL
  rw [decide_eq_true_iff]
  constructor
  · intro hd
    refine ⟨n.take (n.length - s.length), ?_⟩
    conv_lhs => rw [← List.take_append_drop (n.length - s.length) n]
    rw [hd]
  · rintro ⟨h, rfl⟩
    simp [List.length_append]

theorem stripSuffixL_append (h s : LStr) : stripSuffixL s (h ++ s) = h := by
  unfold stripSuffixL
  have hlen : (h ++ s).length - s.length = h.length := by
    simp [List.length_append]
  rw [hlen, List.take_left]

theorem stripDefaultPort_eq_spec (scheme n : LStr) :
    stripDefaultPort scheme n = stripPortSpec scheme n := by
  cases hr : rsplitColon n with
  | none =>
    have hnc : ':' ∉ n := rsplitColon_none_not_mem hr
    simp only [stripDefaultPort, hr, stripPortSpec]
    rw [if_neg, if_neg]
    · rintro ⟨-, hd⟩
      obtain ⟨h, rfl⟩ := endsWithL_iff.mp hd
      exact hnc (List.mem_append.mpr (Or.inr (by decide)))
    · rintro ⟨-, hd⟩
      obtain ⟨h, rfl⟩ := endsWithL_iff.mp hd
      exact hnc (List.mem_append.mpr (Or.inr (by decide)))
  | some hp =>
    obtain ⟨h, p⟩ := hp
    obtain ⟨hne, hnp⟩ := rsplitColon_eq_some hr
    subst hne
    simp only [stripDefaultPort, hr, stripPortSpec]
    by_cases h80 : scheme = "http".data ∧ p = "80".data
    · obtain ⟨rfl, rfl⟩ := h80
      rw [if_pos (Or.inl ⟨rfl, rfl⟩), if_pos ⟨rfl, endsWithL_iff.mpr ⟨h, rfl⟩⟩,
        stripSuffixL_append]
    · by_cases h443 : scheme = "https".data ∧ p = "443".data
      · obtain ⟨rfl, rfl⟩ := h443
        rw [if_pos (Or.inr ⟨rfl, rfl⟩), if_neg, if_pos ⟨rfl, endsWithL_iff.mpr ⟨h, rfl⟩⟩,
          stripSuffixL_append]
        rintro ⟨hs, -⟩
        cases hs
      · have hn80 : ¬ (scheme = "http".data ∧ endsWithL (":80".data) (h ++ ':' :: p) = true) := by
          rintro ⟨hs, hd⟩
          obtain ⟨h', he⟩ := endsWithL_iff.mp hd
          have h2 : rsplitColon (h ++ ':' :: p) = some (h', "80".data) := by
            rw [he]
            exact rsplitColon_append (by decide)
          rw [hr] at h2
          simp only [Option.some.injEq, Prod.mk.injEq] at h2
          exact h80 ⟨hs, h2.2.trans (by decide)⟩
        have hn443 : ¬ (scheme = "https".data ∧ endsWithL (":443".data) (h ++ ':' :: p) = true) := by
          rintro ⟨hs, hd⟩
          obtain ⟨h', he⟩ := endsWithL_iff.mp hd
          have h2 : rsplitColon (h ++ ':' :: p) = some (h', "443".data) := by
            rw [he]
            exact rsplitColon_append (by decide)
          rw [hr] at h2
          simp only [Option.some.injEq, Prod.mk.injEq] at h2
          exact h443 ⟨hs, h2.2.trans (by decide)⟩
        rw [if_neg, if_neg hn443, if_neg hn80]
        rintro (⟨hs, hp80⟩ | ⟨hs, hp443⟩)
        · exact h80 ⟨hs, hp80⟩
        · exact h443 ⟨hs, hp443⟩

theorem except_bind_ok {α β γ : Type} (a : α) (f : α → Except γ β) :
    (Except.ok a : Except γ α) >>= f = f a := rfl

/-! ### Claim C1 -/

/-- Claim C1, counterexample to the claim as stated: the claim says the
query string is left intact, but `_normalize_url` reassembles the URL with
an empty query: on `http://example.com/a?q=1` the code returns
`http://example.com/a`, while the spec-worded (query-preserving)
normalization returns `http://example.com/a?q=1`. -/
theorem c1_counterexample :
    normalize_url ("http://example.com/a?q=1".data) = .ok ("http://example.com/a".data) ∧
    normalizeSpecKeepQuery ("http://example.com/a?q=1".data) =
      .ok ("http://example.com/a?q=1".data) ∧
    ("http://example.com/a".data : LStr) ≠ "http://example.com/a?q=1".data := by
  exact ⟨by decide, by decide, by decide⟩

/-- Claim C1 as amended: for every URL with an explicit scheme,
`_normalize_url` lowercases the scheme and host, strips default ports (80
for http, 443 for https), strips a single trailing slash unless the path is
exactly `/`, strips any fragment, and ALSO strips the query string (the
spec-worded function `normalizeSpecNoQuery`); and the three example
normalizations produce the identical key `http://example.com/path`. -/
theorem c1_normalize_matches_spec :
    (∀ url r, urlparseE url = .ok r → r.scheme ≠ [] →
      normalize_url url = normalizeSpecNoQuery url) ∧
    normalize_url ("HTTP://Example.com:80/path/".data) = .ok ("http://example.com/path".data) ∧
    normalize_url ("http://example.com/path".data) = .ok ("http://example.com/path".data) ∧
    normalize_url ("http://example.com/path/".data) = .ok ("http://example.com/path".data) := by
  refine ⟨?_, by decide, by decide, by decide⟩
  intro url r hp hs
  have hne : url ≠ [] := by
    intro h
    subst h
    have h0 : urlparseE [] = .ok ⟨[], [], [], [], [], []⟩ := rfl
    rw [h0] at hp
    cases hp
    exact hs rfl
  unfold normalize_url normalizeSpecNoQuery
  rw [if_neg hne, if_neg hne]
  simp only [hp, except_bind_ok, if_pos hs, stripDefaultPort_eq_spec]
  rfl

/-- Witness for `c1_normalize_matches_spec` at the claim's own example URL. -/
theorem c1_normalize_matches_spec_witness :
    normalize_url ("HTTP://Example.com:80/path/".data) =
      normalizeSpecNoQuery ("HTTP://Example.com:80/path/".data) :=
  c1_normalize_matches_spec.1 ("HTTP://Example.com:80/path/".data)
    ⟨"http".data, "Example.com:80".data, "/path/".data, [], [], []⟩ (by decide) (by decide)

/-! ### Claim C7 -/

/-- Claim C7 divergence: `_load_history` does recover the missing-file,
unreadable-file (`IOError`) and `JSONDecodeError` states to the empty store
`{"metadata_history": {}, "policy_alerts": []}` — but on a history file
whose contents fail decoding because the bytes are not valid UTF-8,
`json.load` raises `UnicodeDecodeError`, which escapes
`except (json.JSONDecodeError, IOError)`, so constructing the store raises
instead of initializing the empty store. -/
theorem c7_load_history_raises_on_invalid_utf8 :
    load_history .missing = .ok emptyHistory ∧
    load_history .unreadable = .ok emptyHistory ∧
    load_history .invalidJson = .ok emptyHistory ∧
    load_history .invalidUtf8 = .error () :=
  ⟨rfl, rfl, rfl, rfl⟩

/-! ### Concrete fixtures shared by the stealth claims -/

/-- A content-analysis dict carrying only a word count and version
indicators. -/
def caWords (wc : Int) (vi : List LStr) : ContentAnalysisD :=
  { word_count := some wc, heading_structure := none,
    version_indicators := some vi, keyword_counts := [], has_legal_language := none }

/-- A minimal HTML metadata value around a given content analysis. -/
def htmlWith (ca : ContentAnalysisD) : HtmlMeta :=
  { title := none, meta_description := none, canonical_url := none,
    og_metadata := [], twitter_metadata := [], other_metadata := [],
    structured_data := [], important_links := [], content_analysis := ca,
    language := none, charset := none, has_forms := false, has_comments := false,
    error := none }

/-- A minimal fetched metadata value. -/
def metaBase : UrlMetadata :=
  { url := "http://example.org/policy".data, timestamp := "2025-01-01T00:00:00".data,
    status_code := some 200, headers := [], final_url := none, html_metadata := none,
    content_length := 0, response_time := 0, error := none }

/-- Previous snapshot for C5: word_count 1000, indicators `["v1.0"]`,
`Last-Modified: a`. -/
def c5prev : Snapshot :=
  serializeMeta { metaBase with
    headers := [("Last-Modified".data, "a".data)]
    html_metadata := some (htmlWith (caWords 1000 ["v1.0".data])) }

/-- Current metadata for C5: word_count 1150, identical indicator set, and
a changed `Last-Modified: b`. -/
def c5cur : UrlMetadata :=
  { metaBase with
    headers := [("Last-Modified".data, "b".data)]
    html_metadata := some (htmlWith (caWords 1150 ["v1.0".data])) }

/-! ### Claim C5 -/

/-- Claim C5: when both snapshots carry HTML metadata, the absolute
word-count delta exceeds 100, and the version-indicator sets are equal,
`detect_stealth_updates` returns a `STEALTH_CONTENT_CHANGE` alert of
severity `HIGH`; and in the concrete instance (previous word_count 1000,
current 1150, identical indicator sets, Last-Modified changed) it returns
exactly one `STEALTH_CONTENT_CHANGE` alert and no
`STEALTH_LAST_MODIFIED_UPDATE` alert. -/
theorem c5_stealth_content_change :
    (∀ (m : UrlMetadata) (prev : Snapshot) (now : Int) (ch ph : HtmlMeta),
      m.html_metadata = some ch → prev.html_metadata = some ph →
      |ch.content_analysis.word_count.getD 0 - ph.content_analysis.word_count.getD 0| > 100 →
      isSetEq (ch.content_analysis.version_indicators.getD [])
        (ph.content_analysis.version_indicators.getD []) = true →
      ∃ a ∈ detect_stealth_updates m prev now,
        a.alert_type = "STEALTH_CONTENT_CHANGE" ∧ a.severity = "HIGH") ∧
    (detect_stealth_updates c5cur c5prev 0).map (fun a => (a.alert_type, a.severity)) =
      [("STEALTH_CONTENT_CHANGE", "HIGH")] ∧
    dget ("last-modified".data) (lowerDict c5cur.headers) ≠
      dget ("last-modified".data) (lowerDict c5prev.headers) := by
  refine ⟨?_, by decide, by decide⟩
  intro m prev now ch ph hch hph hgt hset
  unfold detect_stealth_updates
  rw [hch, hph]
  simp only [if_pos hgt, if_pos hset]
  exact ⟨_, List.mem_append_left _ (List.mem_singleton_self _), rfl, rfl⟩

/-- Witness for `c5_stealth_content_change` at the claim's own instance. -/
theorem c5_stealth_content_change_witness :
    ∃ a ∈ detect_stealth_updates c5cur c5prev 0,
      a.alert_type = "STEALTH_CONTENT_CHANGE" ∧ a.severity = "HIGH" :=
  c5_stealth_content_change.1 c5cur c5prev 0
    (htmlWith (caWords 1150 ["v1.0".data])) (htmlWith (caWords 1000 ["v1.0".data]))
    rfl rfl (by decide) (by decide)

/-! ### Claim C6 -/

/-- Claim C6: `detect_stealth_updates` produces a
`STEALTH_LAST_MODIFIED_UPDATE` alert (of severity `MEDIUM`) if and only if
both snapshots carry HTML metadata, the `Last-Modified` header value
(looked up over lowercased header keys) differs, and the absolute
word-count delta is strictly below 50; and when either side lacks HTML
metadata the alert list is empty. -/
theorem c6_stealth_last_modified_iff :
    ∀ (m : UrlMetadata) (prev : Snapshot) (now : Int),
      ((∃ a ∈ detect_stealth_updates m prev now,
          a.alert_type = "STEALTH_LAST_MODIFIED_UPDATE" ∧ a.severity = "MEDIUM") ↔
        (∃ ch ph, m.html_metadata = some ch ∧ prev.html_metadata = some ph ∧
          dget ("last-modified".data) (lowerDict m.headers) ≠
            dget ("last-modified".data) (lowerDict prev.headers) ∧
          |ch.content_analysis.word_count.getD 0 -
            ph.content_analysis.word_count.getD 0| < 50)) ∧
      (m.html_metadata = none ∨ prev.html_metadata = none →
        detect_stealth_updates m prev now = []) := by
  intro m prev now
  constructor
  · cases hch : m.html_metadata with
    | none =>
      simp only [detect_stealth_updates, hch]
      constructor
      · rintro ⟨a, ha, -⟩
        cases ha
      · rintro ⟨ch, ph, hc, -⟩
        cases hc
    | some ch =>
      cases hph : prev.html_metadata with
      | none =>
        simp only [detect_stealth_updates, hch, hph]
        constructor
        · rintro ⟨a, ha, -⟩
          cases ha
        · rintro ⟨ch', ph', -, hp, -⟩
          cases hp
      | some ph =>
        simp only [detect_stealth_updates, hch, hph]
        constructor
        · rintro ⟨a, ha, htyp, hsev⟩
          rcases List.mem_append.mp ha with haA | haB
          · exfalso
            revert haA
            split
            · split
              · intro haA
                rw [List.mem_singleton.mp haA] at htyp
                simp at htyp
              · intro haA; cases haA
            · intro haA; cases haA
          · revert haB
            split
            · intro haB
              rename_i hcond
              exact ⟨ch, ph, rfl, rfl, hcond.1, hcond.2⟩
            · intro haB; cases haB
        · rintro ⟨ch', ph', hc, hp, hlm, hwc⟩
          have hc2 : ch' = ch := by injection hc with h2; exact h2.symm
          have hp2 : ph' = ph := by injection hp with h2; exact h2.symm
          rw [hc2, hp2] at hwc
          have hcond : dget ("last-modified".data) (lowerDict m.headers) ≠
              dget ("last-modified".data) (lowerDict prev.headers) ∧
              |ch.content_analysis.word_count.getD 0 -
                ph.content_analysis.word_count.getD 0| < 50 := ⟨hlm, hwc⟩
          rw [if_pos hcond]
          refine ⟨_, List.mem_append_right _ (List.mem_singleton_self _), ?_, ?_⟩ <;> rfl
  · intro hnone
    rcases hnone with h | h
    · simp [detect_stealth_updates, h]
    · cases hm : m.html_metadata <;> simp [detect_stealth_updates, h, hm]

/-- Witness for `c6_stealth_last_modified_iff`: with no HTML metadata on
the current side, no stealth alerts are produced. -/
theorem c6_stealth_last_modified_iff_witness :
    detect_stealth_updates metaBase (serializeMeta metaBase) 0 = [] :=
  (c6_stealth_last_modified_iff metaBase (serializeMeta metaBase) 0).2 (Or.inl rfl)

/-! ### Classification of the records each differencer rule can produce -/

theorem mem_detect_header_changes {c : ChangeDetails} {ch ph : List (LStr × LStr)}
    (h : c ∈ detect_header_changes ch ph) :
    c.change_type = "header_change" ∧ c.policy_alert = false := by
  simp only [detect_header_changes, List.mem_flatMap] at h
  obtain ⟨hdr, -, hc⟩ := h
  revert hc
  split
  · intro hc
    rw [List.mem_singleton.mp hc]
    exact ⟨rfl, rfl⟩
  · intro hc
    cases hc

theorem mem_detect_http_changes {c : ChangeDetails} {cfg : Config} {url : LStr}
    {cur : UrlMetadata} {prev : Snapshot} (h : c ∈ detect_http_changes cfg url cur prev) :
    (c.change_type = "status_change" ∨ c.change_type = "redirect_change" ∨
     c.change_type = "content_size_change" ∨ c.change_type = "header_change") ∧
    c.policy_alert = false := by
  simp only [detect_http_changes] at h
  rcases List.mem_append.mp h with h1 | hD
  · rcases List.mem_append.mp h1 with h2 | hC
    · rcases List.mem_append.mp h2 with hA | hB
      · revert hA
        split
        · intro hA
          rw [List.mem_singleton.mp hA]
          exact ⟨Or.inl rfl, rfl⟩
        · intro hA; cases hA
      · revert hB
        split
        · intro hB
          rw [List.mem_singleton.mp hB]
          exact ⟨Or.inr (Or.inl rfl), rfl⟩
        · intro hB; cases hB
    · revert hC
      split
      · intro hC
        rw [List.mem_singleton.mp hC]
        exact ⟨Or.inr (Or.inr (Or.inl rfl)), rfl⟩
      · intro hC; cases hC
  · obtain ⟨ht, ha⟩ := mem_detect_header_changes hD
    exact ⟨Or.inr (Or.inr (Or.inr ht)), ha⟩

theorem mem_detect_og_changes {c : ChangeDetails} {co po : List (LStr × LStr)}
    (h : c ∈ detect_og_changes co po) :
    c.change_type = "opengraph_change" ∧ c.policy_alert = false := by
  simp only [detect_og_changes, List.mem_flatMap] at h
  obtain ⟨f, -, hc⟩ := h
  revert hc
  split
  · intro hc
    rw [List.mem_singleton.mp hc]
    exact ⟨rfl, rfl⟩
  · intro hc; cases hc

theorem mem_detect_content_changes {c : ChangeDetails} {cfg : Config}
    {cc pc : ContentAnalysisD} (h : c ∈ detect_content_changes cfg cc pc) :
    (c.change_type = "word_count_change" ∨ c.change_type = "heading_structure_change") ∧
    c.policy_alert = false := by
  simp only [detect_content_changes] at h
  rcases List.mem_append.mp h with hA | hB
  · revert hA
    split
    · intro hA
      rw [List.mem_singleton.mp hA]
      exact ⟨Or.inl rfl, rfl⟩
    · intro hA; cases hA
  · revert hB
    split
    · intro hB
      rw [List.mem_singleton.mp hB]
      exact ⟨Or.inr rfl, rfl⟩
    · intro hB; cases hB

theorem mem_detect_html_metadata_changes {c : ChangeDetails} {cfg : Config} {url : LStr}
    {ch ph : HtmlMeta} (h : c ∈ detect_html_metadata_changes cfg url ch ph) :
    (c.change_type = "title_change" ∨ c.change_type = "meta_description_change" ∨
     c.change_type = "canonical_url_change" ∨ c.change_type = "opengraph_change" ∨
     c.change_type = "word_count_change" ∨ c.change_type = "heading_structure_change") ∧
    c.policy_alert = false := by
  simp only [detect_html_metadata_changes] at h
  rcases List.mem_append.mp h with h1 | hE
  · rcases List.mem_append.mp h1 with h2 | hD
    · rcases List.mem_append.mp h2 with h3 | hC
      · rcases List.mem_append.mp h3 with hA | hB
        · revert hA
          split
          · intro hA
            rw [List.mem_singleton.mp hA]
            exact ⟨Or.inl rfl, rfl⟩
          · intro hA; cases hA
        · revert hB
          split
          · intro hB
            rw [List.mem_singleton.mp hB]
            exact ⟨Or.inr (Or.inl rfl), rfl⟩
          · intro hB; cases hB
      · revert hC
        split
        · intro hC
          rw [List.mem_singleton.mp hC]
          exact ⟨Or.inr (Or.inr (Or.inl rfl)), rfl⟩
        · intro hC; cases hC
    · obtain ⟨ht, ha⟩ := mem_detect_og_changes hD
      exact ⟨Or.inr (Or.inr (Or.inr (Or.inl ht))), ha⟩
  · obtain ⟨ht, ha⟩ := mem_detect_content_changes hE
    rcases ht with ht | ht
    · exact ⟨Or.inr (Or.inr (Or.inr (Or.inr (Or.inl ht)))), ha⟩
    · exact ⟨Or.inr (Or.inr (Or.inr (Or.inr (Or.inr ht)))), ha⟩

theorem mem_detect_policy_content_changes {c : ChangeDetails} {cfg : Config}
    {cc pc : ContentAnalysisD} (h : c ∈ detect_policy_content_changes cfg cc pc) :
    (c.change_type = "policy_keyword_change" ∨ c.change_type = "version_indicator_change") ∧
    c.policy_alert = true := by
  simp only [detect_policy_content_changes] at h
  rcases List.mem_append.mp h with hA | hB
  · rw [List.mem_flatMap] at hA
    obtain ⟨kw, -, hc⟩ := hA
    revert hc
    split
    · intro hc
      rw [List.mem_singleton.mp hc]
      exact ⟨Or.inl rfl, rfl⟩
    · intro hc; cases hc
  · revert hB
    split
    · intro hB
      rw [List.mem_singleton.mp hB]
      exact ⟨Or.inr rfl, rfl⟩
    · intro hB; cases hB

theorem mem_detect_keyword_changes {c : ChangeDetails} {cc pc : ContentAnalysisD}
    (h : c ∈ detect_keyword_changes cc pc) :
    c.change_type = "legal_language_change" ∧ c.policy_alert = true := by
  simp only [detect_keyword_changes] at h
  revert h
  split
  · intro h
    rw [List.mem_singleton.mp h]
    exact ⟨rfl, rfl⟩
  · intro h; cases h

theorem mem_detect_policy_changes {c : ChangeDetails} {cfg : Config} {url : LStr}
    {ch ph : HtmlMeta} (h : c ∈ detect_policy_changes cfg url ch ph) :
    (c.change_type = "version_change" ∨ c.change_type = "policy_keyword_change" ∨
     c.change_type = "version_indicator_change" ∨ c.change_type = "legal_language_change") ∧
    c.policy_alert = true := by
  simp only [detect_policy_changes] at h
  rcases List.mem_append.mp h with h1 | hC
  · rcases List.mem_append.mp h1 with hA | hB
    · revert hA
      split
      · intro hA
        rw [List.mem_singleton.mp hA]
        exact ⟨Or.inl rfl, rfl⟩
      · intro hA; cases hA
    · obtain ⟨ht, ha⟩ := mem_detect_policy_content_changes hB
      rcases ht with ht | ht
      · exact ⟨Or.inr (Or.inl ht), ha⟩
      · exact ⟨Or.inr (Or.inr (Or.inl ht)), ha⟩
  · obtain ⟨ht, ha⟩ := mem_detect_keyword_changes hC
    exact ⟨Or.inr (Or.inr (Or.inr ht)), ha⟩

theorem except_bind_error {α β γ : Type} (e : γ) (f : α → Except γ β) :
    (Except.error e : Except γ α) >>= f = .error e := rfl

/-! ### Claim C9 -/

/-- Claim C9: every record produced by a detection call with change_type
`version_change` has `policy_alert = true`, and every record with
change_type `title_change` has `policy_alert = false`. -/
theorem c9_policy_alert_propagation :
    ∀ (cfg : Config) (url : LStr) (m : UrlMetadata) (h : History)
      (cs : List ChangeDetails) (h' : History),
      detect_metadata_changes cfg url m h = .ok (cs, h') →
      ∀ c ∈ cs, (c.change_type = "version_change" → c.policy_alert = true) ∧
                (c.change_type = "title_change" → c.policy_alert = false) := by
  intro cfg url m h cs h' hd c hc
  unfold detect_metadata_changes at hd
  cases hres : get_previous_metadata url h with
  | error e =>
    rw [hres, except_bind_error] at hd
    cases hd
  | ok prevOpt =>
    rw [hres, except_bind_ok] at hd
    cases prevOpt with
    | none =>
      have hcs : cs = [first_detection_record] := by
        injection hd with h2
        exact (congrArg Prod.fst h2).symm
      rw [hcs] at hc
      rw [List.mem_singleton.mp hc]
      exact ⟨by decide, by decide⟩
    | some prev =>
      have hcs : cs = detect_http_changes cfg url m prev ++
          (match m.html_metadata, prev.html_metadata with
           | some ch, some ph =>
             detect_html_metadata_changes cfg url ch ph ++ detect_policy_changes cfg url ch ph
           | _, _ => []) := by
        injection hd with h2
        exact (congrArg Prod.fst h2).symm
      rw [hcs] at hc
      rcases List.mem_append.mp hc with hc1 | hc2
      · obtain ⟨ht, ha⟩ := mem_detect_http_changes hc1
        refine ⟨fun hv => ?_, fun _ => ha⟩
        rcases ht with ht | ht | ht | ht <;> rw [ht] at hv <;> exact absurd hv (by decide)
      · cases hch : m.html_metadata with
        | none => rw [hch] at hc2; cases hc2
        | some ch =>
          cases hph : prev.html_metadata with
          | none => rw [hch, hph] at hc2; cases hc2
          | some ph =>
            rw [hch, hph] at hc2
            rcases List.mem_append.mp hc2 with hc3 | hc4
            · obtain ⟨ht, ha⟩ := mem_detect_html_metadata_changes hc3
              refine ⟨fun hv => ?_, fun _ => ha⟩
              rcases ht with ht | ht | ht | ht | ht | ht <;> rw [ht] at hv <;>
                exact absurd hv (by decide)
            · obtain ⟨ht, ha⟩ := mem_detect_policy_changes hc4
              refine ⟨fun _ => ha, fun htt => ?_⟩
              rcases ht with ht | ht | ht | ht <;> rw [ht] at htt <;>
                exact absurd htt (by decide)

/-- Witness for `c9_policy_alert_propagation`: the first-sight call on the
empty store produces only records satisfying the claim's two implications. -/
theorem c9_policy_alert_propagation_witness :
    (first_detection_record.change_type = "version_change" →
      first_detection_record.policy_alert = true) ∧
    (first_detection_record.change_type = "title_change" →
      first_detection_record.policy_alert = false) :=
  c9_policy_alert_propagation defaultConfig ("http://example.org/policy".data) metaBase
    emptyHistory [first_detection_record]
    (save_current_metadata ("http://example.org/policy".data) metaBase emptyHistory)
    (by decide) first_detection_record (List.mem_singleton_self _)

theorem except_map_ok {α β γ : Type} (a : α) (f : α → β) :
    (Except.ok a : Except γ α).map f = .ok (f a) := rfl

/-- Predicate selecting `content_size_change` records (claim C4). -/
def isCS (c : ChangeDetails) : Bool := c.change_type == "content_size_change"

theorem filter_cs_nil_of_types {l : List ChangeDetails}
    (hl : ∀ c ∈ l, c.change_type ≠ "content_size_change") :
    l.filter isCS = [] :=
  List.filter_eq_nil_iff.mpr (fun c hc => by simp [isCS, hl c hc])

theorem filter_cs_ite_nil (t : String) {P : Prop} [Decidable P] {r : ChangeDetails}
    (ht : r.change_type = t) (hr : t ≠ "content_size_change") :
    (if P then [r] else []).filter isCS = [] := by
  split
  · simp [isCS, ht, hr]
  · rfl

/-! ### Claim C4 -/

/-- Claim C4: for a resolved (already tracked) URL, a content-length delta
of exactly `content_size_threshold` produces no `content_size_change`
record, while a delta of `content_size_threshold + 1` produces exactly one,
of severity `medium`, whose details carry the percent change computed
against `max(previous_length, 1)`. -/
theorem c4_content_size_threshold_boundary :
    ∀ (cfg : Config) (url : LStr) (m : UrlMetadata) (st : History) (prev : Snapshot),
      get_previous_metadata url st = .ok (some prev) →
      ((|m.content_length - prev.content_length| = cfg.content_size_threshold →
        (detect_metadata_changes cfg url m st).map
          (fun r => r.1.filter isCS) = .ok []) ∧
       (|m.content_length - prev.content_length| = cfg.content_size_threshold + 1 →
        (detect_metadata_changes cfg url m st).map
          (fun r => r.1.filter isCS) =
        .ok [{ change_type := "content_size_change", source := "http_metadata",
               details := [("old_size", .i prev.content_length),
                           ("new_size", .i m.content_length),
                           ("change_percent",
                            .q (((m.content_length - prev.content_length).natAbs : Rat) /
                                ((max prev.content_length 1 : Int) : Rat) * 100))],
               severity := "medium", policy_alert := false }])) := by
  intro cfg url m st prev hres
  have hdet : detect_metadata_changes cfg url m st =
      .ok (detect_http_changes cfg url m prev ++
        (match m.html_metadata, prev.html_metadata with
         | some ch, some ph =>
           detect_html_metadata_changes cfg url ch ph ++ detect_policy_changes cfg url ch ph
         | _, _ => []),
        save_current_metadata url m st) := by
    unfold detect_metadata_changes
    rw [hres, except_bind_ok]
    rfl
  have hrest : (match m.html_metadata, prev.html_metadata with
      | some ch, some ph =>
        detect_html_metadata_changes cfg url ch ph ++ detect_policy_changes cfg url ch ph
      | _, _ => []).filter isCS = [] := by
    apply filter_cs_nil_of_types
    intro c hc
    cases hch : m.html_metadata with
    | none => rw [hch] at hc; cases hc
    | some ch =>
      cases hph : prev.html_metadata with
      | none => rw [hch, hph] at hc; cases hc
      | some ph =>
        rw [hch, hph] at hc
        rcases List.mem_append.mp hc with h1 | h2
        · obtain ⟨ht, -⟩ := mem_detect_html_metadata_changes h1
          rcases ht with ht | ht | ht | ht | ht | ht <;> rw [ht] <;> decide
        · obtain ⟨ht, -⟩ := mem_detect_policy_changes h2
          rcases ht with ht | ht | ht | ht <;> rw [ht] <;> decide
  have hhdr : (detect_header_changes m.headers prev.headers).filter
      isCS = [] := by
    apply filter_cs_nil_of_types
    intro c hc
    rw [(mem_detect_header_changes hc).1]
    decide
  constructor
  · intro hδ
    rw [hdet, except_map_ok]
    simp only [List.filter_append, hrest, detect_http_changes, hhdr]
    rw [filter_cs_ite_nil ("status_change") rfl (by decide),
      filter_cs_ite_nil ("redirect_change") rfl (by decide),
      if_neg (by rw [hδ]; exact lt_irrefl _)]
    simp [isCS]
  · intro hδ
    rw [hdet, except_map_ok]
    simp only [List.filter_append, hrest, detect_http_changes, hhdr]
    rw [filter_cs_ite_nil ("status_change") rfl (by decide),
      filter_cs_ite_nil ("redirect_change") rfl (by decide),
      if_pos (by rw [hδ]; exact lt_add_one _)]
    simp [isCS]

/-- Fixture for the C4 witness: an already-tracked URL. -/
def c4prev : UrlMetadata := { metaBase with url := "http://c4.example".data }

/-- Store already tracking the C4 fixture URL under its raw key. -/
def c4st : History :=
  { metadata_history := [("http://c4.example".data, serializeMeta c4prev)]
    policy_alerts := [] }

/-- Witness for `c4_content_size_threshold_boundary`: at the default
threshold 1000, a delta of exactly 1000 produces no `content_size_change`
record. -/
theorem c4_content_size_threshold_boundary_witness :
    (detect_metadata_changes defaultConfig ("http://c4.example".data)
      { c4prev with content_length := 1000 } c4st).map (fun r => r.1.filter isCS) = .ok [] :=
  (c4_content_size_threshold_boundary defaultConfig ("http://c4.example".data)
    { c4prev with content_length := 1000 } c4st (serializeMeta c4prev) (by decide)).1 (by decide)

/-! ### Dictionary lemmas -/

theorem char_toNat_ofNat_of_valid {n : Nat} (h : n < 55296) : (Char.ofNat n).toNat = n := by
  rw [Char.ofNat, dif_pos (Or.inl h)]
  rfl

theorem lowerC_idem (c : Char) : lowerC (lowerC c) = lowerC c := by
  unfold lowerC
  by_cases h : 65 ≤ c.toNat ∧ c.toNat ≤ 90
  · rw [if_pos h]
    have hv : (Char.ofNat (c.toNat + 32)).toNat = c.toNat + 32 :=
      char_toNat_ofNat_of_valid (by omega)
    rw [if_neg]
    rw [hv]
    omega
  · rw [if_neg h, if_neg h]

theorem lowerL_idem (s : LStr) : lowerL (lowerL s) = lowerL s := by
  unfold lowerL
  rw [List.map_map]
  exact List.map_congr_left (fun c _ => lowerC_idem c)

/-- The keys of an association-list dict. -/
def keysOf {α : Type} (d : List (LStr × α)) : List LStr := d.map (fun p => p.1)

theorem keysOf_nil {α : Type} : keysOf ([] : List (LStr × α)) = [] := rfl

theorem keysOf_cons {α : Type} (p : LStr × α) (rest : List (LStr × α)) :
    keysOf (p :: rest) = p.1 :: keysOf rest := rfl

theorem keysOf_append {α : Type} (d e : List (LStr × α)) :
    keysOf (d ++ e) = keysOf d ++ keysOf e := List.map_append _ _ _

theorem mem_keysOf_of_mem {α : Type} {p : LStr × α} {d : List (LStr × α)}
    (h : p ∈ d) : p.1 ∈ keysOf d := List.mem_map_of_mem _ h

theorem keys_dinsert_subset {α : Type} (k : LStr) (v : α) (d : List (LStr × α)) :
    ∀ k2 ∈ keysOf (dinsert k v d), k2 ∈ keysOf d ∨ k2 = k := by
  induction d with
  | nil =>
    intro k2 hk2
    rcases List.mem_cons.mp hk2 with h2 | h2
    · exact Or.inr h2
    · cases h2
  | cons p rest ih =>
    obtain ⟨k', v'⟩ := p
    intro k2 hk2
    by_cases hk : k' = k
    · rw [dinsert, if_pos hk] at hk2
      rw [keysOf_cons] at hk2
      rcases List.mem_cons.mp hk2 with h2 | h2
      · exact Or.inl (by rw [keysOf_cons]; exact List.mem_cons.mpr (Or.inl h2))
      · exact Or.inl (by rw [keysOf_cons]; exact List.mem_cons.mpr (Or.inr h2))
    · rw [dinsert, if_neg hk] at hk2
      rw [keysOf_cons] at hk2
      rcases List.mem_cons.mp hk2 with h2 | h2
      · exact Or.inl (by rw [keysOf_cons]; exact List.mem_cons.mpr (Or.inl h2))
      · rcases ih k2 h2 with h3 | h3
        · exact Or.inl (by rw [keysOf_cons]; exact List.mem_cons.mpr (Or.inr h3))
        · exact Or.inr h3

theorem lowerDict_keys_fixed {α : Type} (d : List (LStr × α)) :
    ∀ k ∈ keysOf (lowerDict d), lowerL k = k := by
  suffices h : ∀ acc : List (LStr × α), (∀ k ∈ keysOf acc, lowerL k = k) →
      ∀ k ∈ keysOf (d.foldl (fun a p => dinsert (lowerL p.1) p.2 a) acc), lowerL k = k by
    refine h [] ?_
    intro k hk
    cases hk
  induction d with
  | nil => intro acc hacc; exact hacc
  | cons p rest ih =>
    intro acc hacc
    simp only [List.foldl_cons]
    apply ih
    intro k hk
    rcases keys_dinsert_subset _ _ _ k hk with hk2 | hk2
    · exact hacc k hk2
    · rw [hk2]; exact lowerL_idem _

/-- Unique keys. -/
def NodupKeys {α : Type} (d : List (LStr × α)) : Prop := (keysOf d).Nodup

theorem nodupKeys_dinsert {α : Type} (k : LStr) (v : α) {d : List (LStr × α)}
    (h : NodupKeys d) : NodupKeys (dinsert k v d) := by
  induction d with
  | nil =>
    rw [NodupKeys, dinsert]
    exact List.nodup_singleton k
  | cons p rest ih =>
    obtain ⟨k', v'⟩ := p
    by_cases hk : k' = k
    · rw [NodupKeys, dinsert, if_pos hk, keysOf_cons]
      rw [NodupKeys, keysOf_cons] at h
      exact h
    · rw [NodupKeys, dinsert, if_neg hk, keysOf_cons]
      rw [NodupKeys, keysOf_cons, List.nodup_cons] at h
      obtain ⟨hnotin, hnd⟩ := h
      rw [List.nodup_cons]
      refine ⟨?_, ih hnd⟩
      intro hmem
      rcases keys_dinsert_subset k v rest k' hmem with h2 | h2
      · exact hnotin h2
      · exact hk h2

theorem nodupKeys_lowerDict {α : Type} (d : List (LStr × α)) : NodupKeys (lowerDict d) := by
  suffices h : ∀ acc : List (LStr × α), NodupKeys acc →
      NodupKeys (d.foldl (fun a p => dinsert (lowerL p.1) p.2 a) acc) by
    exact h [] List.nodup_nil
  induction d with
  | nil => intro acc hacc; exact hacc
  | cons p rest ih =>
    intro acc hacc
    simp only [List.foldl_cons]
    exact ih _ (nodupKeys_dinsert _ _ hacc)

theorem dinsert_eq_append {α : Type} {k : LStr} (v : α) {d : List (LStr × α)}
    (h : k ∉ keysOf d) : dinsert k v d = d ++ [(k, v)] := by
  induction d with
  | nil => rfl
  | cons p rest ih =>
    obtain ⟨k', v'⟩ := p
    have hk : ¬ k' = k := by
      intro he
      exact h (by rw [keysOf_cons, he]; exact List.mem_cons_self _ _)
    rw [dinsert, if_neg hk,
      ih (fun hm => h (by rw [keysOf_cons]; exact List.mem_cons.mpr (Or.inr hm)))]
    rfl

theorem foldl_dinsert_self {α : Type} :
    ∀ (d acc : List (LStr × α)), NodupKeys (acc ++ d) →
      d.foldl (fun a p => dinsert p.1 p.2 a) acc = acc ++ d := by
  intro d
  induction d with
  | nil => intro acc h; simp
  | cons p rest ih =>
    intro acc h
    obtain ⟨k, v⟩ := p
    simp only [List.foldl_cons]
    have hk : k ∉ keysOf acc := by
      rw [NodupKeys, keysOf_append, List.nodup_append] at h
      intro hmem
      exact h.2.2 hmem (by rw [keysOf_cons]; exact List.mem_cons_self _ _)
    rw [dinsert_eq_append v hk]
    rw [ih (acc ++ [(k, v)]) (by rw [NodupKeys]; rw [NodupKeys] at h; simpa using h)]
    simp

theorem foldl_congr_mem {α β : Type} {f g : β → α → β} :
    ∀ {l : List α}, (∀ a ∈ l, ∀ b, f b a = g b a) →
      ∀ init : β, l.foldl f init = l.foldl g init := by
  intro l
  induction l with
  | nil => intro h init; rfl
  | cons x rest ih =>
    intro h init
    simp only [List.foldl_cons]
    rw [h x (List.mem_cons_self _ _) init]
    exact ih (fun a ha b => h a (List.mem_cons_of_mem _ ha) b) _

theorem lowerDict_eq_self_of_fixed {α : Type} {d : List (LStr × α)}
    (hfix : ∀ k ∈ keysOf d, lowerL k = k) (hnd : NodupKeys d) :
    lowerDict d = d := by
  unfold lowerDict
  have hstep : d.foldl (fun a p => dinsert (lowerL p.1) p.2 a) [] =
      d.foldl (fun a p => dinsert p.1 p.2 a) [] := by
    apply foldl_congr_mem
    intro p hp b
    rw [hfix p.1 (mem_keysOf_of_mem hp)]
  rw [hstep]
  exact foldl_dinsert_self d [] (by simpa using hnd)

theorem lowerDict_idem {α : Type} (d : List (LStr × α)) :
    lowerDict (lowerDict d) = lowerDict d :=
  lowerDict_eq_self_of_fixed (lowerDict_keys_fixed d) (nodupKeys_lowerDict d)

theorem dget_dinsert_self {α : Type} (k : LStr) (v : α) (d : List (LStr × α)) :
    dget k (dinsert k v d) = some v := by
  induction d with
  | nil => rw [dinsert, dget, if_pos rfl]
  | cons p rest ih =>
    obtain ⟨k', v'⟩ := p
    by_cases hk : k' = k
    · rw [dinsert, if_pos hk, dget, if_pos hk]
    · rw [dinsert, if_neg hk, dget, if_neg hk]
      exact ih

theorem dget_dinsert_ne {α : Type} {k k2 : LStr} (hne : k2 ≠ k) (v : α)
    (d : List (LStr × α)) : dget k2 (dinsert k v d) = dget k2 d := by
  induction d with
  | nil =>
    rw [dinsert, dget, dget, if_neg (fun h => hne h.symm)]
    rfl
  | cons p rest ih =>
    obtain ⟨k', v'⟩ := p
    by_cases hk : k' = k
    · subst hk
      rw [dinsert, if_pos rfl, dget, dget]
      rw [if_neg (fun h => hne h.symm), if_neg (fun h => hne h.symm)]
    · rw [dinsert, if_neg hk, dget, dget]
      by_cases hk2 : k' = k2
      · rw [if_pos hk2, if_pos hk2]
      · rw [if_neg hk2, if_neg hk2]
        exact ih

/-! ### Claim C2 -/

theorem resolve_none_facts {url : LStr} {st : History}
    (hres : get_previous_metadata url st = .ok none) :
    dget url st.metadata_history = none ∧
    ∃ nu, normalize_url url = .ok nu ∧ dget nu st.metadata_history = none := by
  unfold get_previous_metadata at hres
  cases hdu : dget url st.metadata_history with
  | some e =>
    rw [hdu] at hres
    simp at hres
  | none =>
    rw [hdu] at hres
    refine ⟨rfl, ?_⟩
    cases hnu : normalize_url url with
    | error e =>
      rw [hnu, except_bind_error] at hres
      cases hres
    | ok nu =>
      rw [hnu, except_bind_ok] at hres
      refine ⟨nu, rfl, ?_⟩
      cases hdn : dget nu st.metadata_history with
      | some e =>
        rw [hdn] at hres
        injection hres
      | none => rfl

/-- Resolution on the store updated by `save_current_metadata` under the
amended-C2 hypotheses always finds the just-written snapshot. -/
theorem resolve_after_save {url : LStr} {m : UrlMetadata} {st : History}
    (hres : get_previous_metadata url st = .ok none)
    (hfu : isTruthyS m.final_url = false) (hmu : m.url = url) :
    get_previous_metadata url (save_current_metadata url m st) =
      .ok (some (serializeMeta m)) := by
  obtain ⟨hdu, nu, hnu, -⟩ := resolve_none_facts hres
  have hkey : save_current_metadata url m st =
      { st with metadata_history := dinsert nu (serializeMeta m) st.metadata_history } := by
    unfold save_current_metadata saveKey
    have hks : (match m.final_url with
        | some f => if f ≠ [] then f else m.url
        | none => m.url) = url := by
      cases hf : m.final_url with
      | none => exact hmu
      | some f =>
        rw [hf, isTruthyS] at hfu
        simp only [ne_eq, decide_not, Bool.not_eq_false', decide_eq_true_eq] at hfu
        simp [hfu, hmu]
    rw [hks, hnu]
  rw [hkey]
  unfold get_previous_metadata
  by_cases hun : url = nu
  · subst hun
    rw [dget_dinsert_self]
  · rw [dget_dinsert_ne hun, hdu, hnu, except_bind_ok, dget_dinsert_self]
    rfl

/-- Claim C2 counterexample input: the caller queries `http://a.com` but
the fetched metadata records `final_url = http://b.com`. -/
def c2m : UrlMetadata :=
  { metaBase with url := "http://a.com".data, final_url := some ("http://b.com".data) }

/-- Claim C2, counterexample to the claim as stated: for the never-seen URL
`http://a.com` whose metadata carries `final_url = http://b.com`, the call
does return exactly one `first_detection` record, but the snapshot is
stored under `http://b.com`, and a subsequent resolve for `http://a.com`
finds nothing — the store does NOT report the URL as Tracked. -/
theorem c2_counterexample :
    (detect_metadata_changes defaultConfig ("http://a.com".data) c2m emptyHistory).map
      (fun r => (r.1, get_previous_metadata ("http://a.com".data) r.2)) =
    .ok ([first_detection_record], .ok none) := by decide

/-- Claim C2 as amended: for every URL with no resolvable previous snapshot,
`detect_metadata_changes` returns exactly one `first_detection` record
(severity low, source `direct_metadata`), performs no diffing, and persists
the metadata; and — provided the stored key is reachable from the queried
URL, in particular when `metadata.final_url` is unset (None or empty) and
`metadata.url` is the queried URL — the store afterwards reports the URL as
Tracked (a subsequent resolve finds the stored snapshot). -/
theorem c2_first_detection :
    ∀ (cfg : Config) (url : LStr) (m : UrlMetadata) (st : History),
      get_previous_metadata url st = .ok none →
      isTruthyS m.final_url = false →
      m.url = url →
      detect_metadata_changes cfg url m st =
        .ok ([first_detection_record], save_current_metadata url m st) ∧
      get_previous_metadata url (save_current_metadata url m st) =
        .ok (some (serializeMeta m)) := by
  intro cfg url m st hres hfu hmu
  refine ⟨?_, resolve_after_save hres hfu hmu⟩
  unfold detect_metadata_changes
  rw [hres, except_bind_ok]
  rfl

/-- Witness for `c2_first_detection` on the empty store. -/
theorem c2_first_detection_witness :
    detect_metadata_changes defaultConfig ("http://example.org/policy".data) metaBase
      emptyHistory =
      .ok ([first_detection_record],
        save_current_metadata ("http://example.org/policy".data) metaBase emptyHistory) ∧
    get_previous_metadata ("http://example.org/policy".data)
      (save_current_metadata ("http://example.org/policy".data) metaBase emptyHistory) =
      .ok (some (serializeMeta metaBase)) :=
  c2_first_detection defaultConfig ("http://example.org/policy".data) metaBase emptyHistory
    (by decide) (by decide) rfl

/-! ### Diffing a snapshot against its own serialization is empty -/

theorem isSetEq_refl (l : List LStr) : isSetEq l l = true := by
  simp [isSetEq, List.all_eq_true]

theorem detect_header_changes_self (H : List (LStr × LStr)) :
    detect_header_changes H (lowerDict H) = [] := by
  simp [detect_header_changes, lowerDict_idem, important_headers]

theorem detect_http_changes_self {cfg : Config} (hcst : 0 ≤ cfg.content_size_threshold)
    (url : LStr) (m : UrlMetadata) :
    detect_http_changes cfg url m (serializeMeta m) = [] := by
  simp [detect_http_changes, serializeMeta, detect_header_changes_self, sub_self,
    abs_zero, not_lt.mpr hcst]

theorem detect_og_changes_self (og : List (LStr × LStr)) : detect_og_changes og og = [] := by
  simp [detect_og_changes, important_og_fields]

theorem detect_content_changes_self {cfg : Config} (hw : 0 ≤ cfg.word_count_threshold)
    (ca : ContentAnalysisD) : detect_content_changes cfg ca ca = [] := by
  simp [detect_content_changes, sub_self, abs_zero, not_lt.mpr hw]

theorem detect_html_metadata_changes_self {cfg : Config}
    (hw : 0 ≤ cfg.word_count_threshold) (url : LStr) (ch : HtmlMeta) :
    detect_html_metadata_changes cfg url ch ch = [] := by
  simp [detect_html_metadata_changes, detect_og_changes_self,
    detect_content_changes_self hw]

theorem detect_policy_content_changes_self {cfg : Config}
    (hp : 0 ≤ cfg.policy_keyword_count_threshold) (ca : ContentAnalysisD) :
    detect_policy_content_changes cfg ca ca = [] := by
  simp [detect_policy_content_changes, policy_keywords, sub_self, abs_zero,
    not_lt.mpr hp, isSetEq_refl]

theorem detect_keyword_changes_self (ca : ContentAnalysisD) :
    detect_keyword_changes ca ca = [] := by
  simp [detect_keyword_changes]

theorem detect_policy_changes_self {cfg : Config}
    (hp : 0 ≤ cfg.policy_keyword_count_threshold) (url : LStr) (ch : HtmlMeta) :
    detect_policy_changes cfg url ch ch = [] := by
  simp [detect_policy_changes, detect_policy_content_changes_self hp,
    detect_keyword_changes_self]

/-! ### Claim C3 -/

/-- Claim C3 counterexample input: queried URL and recorded final_url
disagree, so the written snapshot is unreachable on the second call. -/
def c3m : UrlMetadata :=
  { metaBase with
    url := "http://idem.example".data
    final_url := some ("http://other.example".data) }

/-- Claim C3, counterexample to the claim as stated: calling
`detect_metadata_changes` twice in a row with the same metadata does not
always yield an empty list on the second call — here the snapshot is stored
under `normalize(final_url) = http://other.example`, which no lookup stage
reaches from `http://idem.example`, so the second call re-reports
`first_detection`. -/
theorem c3_counterexample :
    (detect_metadata_changes defaultConfig ("http://idem.example".data) c3m
      emptyHistory).map
      (fun r => (detect_metadata_changes defaultConfig ("http://idem.example".data) c3m
        r.2).map (fun r2 => r2.1)) =
    .ok (.ok [first_detection_record]) := by decide

/-- Claim C3 as amended: with non-negative thresholds, if a first call has
written the snapshot and the second call's previous-snapshot resolution
finds exactly that snapshot (which holds e.g. whenever `final_url` is unset,
`metadata.url` is the queried URL and the URL is its own normal form — but
can fail when the snapshot was keyed under a divergent `final_url`), the
second call with the same metadata returns an empty change list. -/
theorem c3_idempotent_when_second_resolves :
    ∀ (cfg : Config) (url : LStr) (m : UrlMetadata) (h0 : History)
      (cs1 : List ChangeDetails) (h1 : History),
      0 ≤ cfg.content_size_threshold →
      0 ≤ cfg.word_count_threshold →
      0 ≤ cfg.policy_keyword_count_threshold →
      detect_metadata_changes cfg url m h0 = .ok (cs1, h1) →
      get_previous_metadata url h1 = .ok (some (serializeMeta m)) →
      (detect_metadata_changes cfg url m h1).map (fun r => r.1) = .ok [] := by
  intro cfg url m h0 cs1 h1 hc hw hp hfirst hres
  have hdet : detect_metadata_changes cfg url m h1 =
      .ok (detect_http_changes cfg url m (serializeMeta m) ++
        (match m.html_metadata, m.html_metadata with
         | some ch, some ph =>
           detect_html_metadata_changes cfg url ch ph ++ detect_policy_changes cfg url ch ph
         | _, _ => []),
        save_current_metadata url m h1) := by
    unfold detect_metadata_changes
    rw [hres, except_bind_ok]
    rfl
  rw [hdet, except_map_ok]
  rw [detect_http_changes_self hc]
  cases hch : m.html_metadata with
  | none => rfl
  | some ch =>
    simp [detect_html_metadata_changes_self hw, detect_policy_changes_self hp]

/-- Witness for `c3_idempotent_when_second_resolves` on a first-sighted
URL under the default thresholds. -/
theorem c3_idempotent_when_second_resolves_witness :
    (detect_metadata_changes defaultConfig ("http://example.org/policy".data) metaBase
      (save_current_metadata ("http://example.org/policy".data) metaBase
        emptyHistory)).map (fun r => r.1) = .ok [] :=
  c3_idempotent_when_second_resolves defaultConfig ("http://example.org/policy".data)
    metaBase emptyHistory [first_detection_record]
    (save_current_metadata ("http://example.org/policy".data) metaBase emptyHistory)
    (by decide) (by decide) (by decide) (by decide) (by decide)

/-! ### Claim C10 -/

theorem detect_metadata_changes_saves {cfg : Config} {url : LStr} {m : UrlMetadata}
    {h : History} {cs : List ChangeDetails} {h' : History}
    (hd : detect_metadata_changes cfg url m h = .ok (cs, h')) :
    h' = save_current_metadata url m h := by
  unfold detect_metadata_changes at hd
  cases hres : get_previous_metadata url h with
  | error e =>
    rw [hres, except_bind_error] at hd
    cases hd
  | ok prevOpt =>
    rw [hres, except_bind_ok] at hd
    cases prevOpt with
    | none =>
      injection hd with h2
      exact (congrArg Prod.snd h2).symm
    | some prev =>
      injection hd with h2
      exact (congrArg Prod.snd h2).symm

theorem keySource_eq (m : UrlMetadata) :
    (match m.final_url with
     | some f => if f ≠ [] then f else m.url
     | none => m.url) =
    (if isTruthyS m.final_url = true then m.final_url.getD [] else m.url) := by
  cases hf : m.final_url with
  | none => simp [isTruthyS]
  | some f =>
    by_cases he : f = []
    · simp [isTruthyS, he]
    · simp [isTruthyS, he]

/-- Claim C10 fixture: a normalizable `final_url` that no lookup stage
reaches from the queried URL. -/
def c10m : UrlMetadata :=
  { metaBase with
    url := "http://c10.example".data
    final_url := some ("http://divergent.example".data) }

/-- Claim C10 fixture for the counterexample: a `final_url` whose
normalization raises (mismatched IPv6 bracket). -/
def c10err : UrlMetadata :=
  { metaBase with
    url := "http://c10err.example".data
    final_url := some ("http://[::z".data) }

/-- Claim C10, counterexample to the claim as stated: when
`normalize(final_url)` raises (mismatched bracket), the `except` fallback
keys the snapshot by the URL string the caller passed in — the claim's
"stored under the key obtained by normalizing …, not under the URL string
the caller passed in" does not hold on this call. -/
theorem c10_counterexample :
    normalize_url ("http://[::z".data) = .error () ∧
    (detect_metadata_changes defaultConfig ("http://c10err.example".data) c10err
      emptyHistory).map (fun r => r.2.metadata_history.map (fun p => p.1)) =
    .ok [("http://c10err.example".data)] :=
  ⟨by decide, by decide⟩

/-- Claim C10 as amended: on every successful detect call the snapshot is
stored under `normalize(final_url)` when `final_url` is non-empty and
`normalize(metadata.url)` otherwise — except that when that normalization
raises, the caller's raw URL is used as the key; and (third conjunct) when
the normalized `final_url` diverges from every lookup variant of the
queried URL, a later call with the same queried URL fails to resolve the
stored snapshot. -/
theorem c10_storage_key :
    (∀ (cfg : Config) (url : LStr) (m : UrlMetadata) (h : History)
       (cs : List ChangeDetails) (h' : History) (k : LStr),
       detect_metadata_changes cfg url m h = .ok (cs, h') →
       normalize_url (if isTruthyS m.final_url = true then m.final_url.getD []
         else m.url) = .ok k →
       h'.metadata_history = dinsert k (serializeMeta m) h.metadata_history) ∧
    (∀ (cfg : Config) (url : LStr) (m : UrlMetadata) (h : History)
       (cs : List ChangeDetails) (h' : History),
       detect_metadata_changes cfg url m h = .ok (cs, h') →
       normalize_url (if isTruthyS m.final_url = true then m.final_url.getD []
         else m.url) = .error () →
       h'.metadata_history = dinsert url (serializeMeta m) h.metadata_history) ∧
    (detect_metadata_changes defaultConfig ("http://c10.example".data) c10m
      emptyHistory).map
      (fun r => (r.2.metadata_history.map (fun p => p.1),
        get_previous_metadata ("http://c10.example".data) r.2)) =
    .ok (["http://divergent.example".data], .ok none) := by
  refine ⟨?_, ?_, by decide⟩
  · intro cfg url m h cs h' k hd hk
    rw [detect_metadata_changes_saves hd]
    unfold save_current_metadata saveKey
    rw [keySource_eq, hk]
  · intro cfg url m h cs h' hd hk
    rw [detect_metadata_changes_saves hd]
    unfold save_current_metadata saveKey
    rw [keySource_eq, hk]

/-- Witness for `c10_storage_key` at a concrete first-sight call. -/
theorem c10_storage_key_witness :
    (save_current_metadata ("http://example.org/policy".data) metaBase
      emptyHistory).metadata_history =
    dinsert ("http://example.org/policy".data) (serializeMeta metaBase) [] :=
  c10_storage_key.1 defaultConfig ("http://example.org/policy".data) metaBase
    emptyHistory [first_detection_record]
    (save_current_metadata ("http://example.org/policy".data) metaBase emptyHistory)
    ("http://example.org/policy".data) (by decide) (by decide)

/-! ### Claim C8 -/

/-- The per-entry scan check with a raising check collapsed to “no match”
(the `except Exception: continue`). -/
def entryMatchB (url nu : LStr) (e : Snapshot) : Bool :=
  match entryCheck url nu e with
  | .ok b => b
  | .error _ => false

theorem scanEntries_eq_find (url nu : LStr) :
    ∀ l : List Snapshot, scanEntries url nu l = l.find? (entryMatchB url nu) := by
  intro l
  induction l with
  | nil => rfl
  | cons e rest ih =>
    cases hec : entryCheck url nu e with
    | ok b =>
      cases b
      · simp [scanEntries, List.find?, entryMatchB, hec, ih]
      · simp [scanEntries, List.find?, entryMatchB, hec]
    | error u => simp [scanEntries, List.find?, entryMatchB, hec, ih]

/-- Claim C8: previous-snapshot resolution tries, in order, (a) the exact
raw key, (b) the normalized key, (c) the generated variants (first hit in
the modelled variant order), and (d) the scan over stored snapshots
comparing recorded final_url/canonical_url raw and normalized; the scan
returns the first matching entry, an entry whose candidate fails to parse
is skipped rather than aborting the scan, and the result is `none` when
nothing matches. -/
theorem c8_resolution_order :
    (∀ (url : LStr) (h : History) (e : Snapshot),
       dget url h.metadata_history = some e →
       get_previous_metadata url h = .ok (some e)) ∧
    (∀ (url nu : LStr) (h : History) (e : Snapshot),
       dget url h.metadata_history = none →
       normalize_url url = .ok nu →
       dget nu h.metadata_history = some e →
       get_previous_metadata url h = .ok (some e)) ∧
    (∀ (url nu v : LStr) (h : History),
       dget url h.metadata_history = none →
       normalize_url url = .ok nu →
       dget nu h.metadata_history = none →
       (generate_url_variants url).find?
         (fun w => (dget w h.metadata_history).isSome) = some v →
       get_previous_metadata url h = .ok (dget v h.metadata_history)) ∧
    (∀ (url nu : LStr) (h : History),
       dget url h.metadata_history = none →
       normalize_url url = .ok nu →
       dget nu h.metadata_history = none →
       (generate_url_variants url).find?
         (fun w => (dget w h.metadata_history).isSome) = none →
       get_previous_metadata url h =
         .ok ((h.metadata_history.map (fun p => p.2)).find? (entryMatchB url nu))) ∧
    (∀ (url nu : LStr) (e : Snapshot) (rest : List Snapshot),
       entryCheck url nu e = .error () →
       scanEntries url nu (e :: rest) = scanEntries url nu rest) := by
  refine ⟨?_, ?_, ?_, ?_, ?_⟩
  · intro url h e hd
    unfold get_previous_metadata
    rw [hd]
  · intro url nu h e hd hnu hd2
    unfold get_previous_metadata
    rw [hd, hnu, except_bind_ok, hd2]
    rfl
  · intro url nu v h hd hnu hd2 hfind
    unfold get_previous_metadata
    rw [hd, hnu, except_bind_ok, hd2, hfind]
    rfl
  · intro url nu h hd hnu hd2 hfind
    unfold get_previous_metadata
    rw [hd, hnu, except_bind_ok, hd2, hfind, scanEntries_eq_find]
    rfl
  · intro url nu e rest hec
    simp [scanEntries, hec]

/-- Fixture history for the C8 witness. -/
def c8st : History :=
  { metadata_history := [("http://c8.example".data, serializeMeta metaBase)]
    policy_alerts := [] }

/-- Witness for `c8_resolution_order`: a raw-key hit resolves directly. -/
theorem c8_resolution_order_witness :
    get_previous_metadata ("http://c8.example".data) c8st =
      .ok (some (serializeMeta metaBase)) :=
  c8_resolution_order.1 ("http://c8.example".data) c8st (serializeMeta metaBase)
    (by decide)
